import Mathlib

/-!
Verification of the remix-browser core: ref resolver, script execution
engine bookkeeping, bounded shared logs, tab pool, and the snapshot
accessible-name computation.  Rust strings are modelled as `List Char`;
maps as association lists; fallible code as `Except`.
-/

namespace RemixBrowser

/-- Rust `String` / `&str` values are modelled as lists of characters. -/
abbrev Str := List Char

/-- Conversion helper for writing concrete modelled strings. -/
def str (s : String) : Str := s.toList

/-- Whitespace predicate used by `str::trim` (ASCII whitespace). -/
def isWS (c : Char) : Bool := c.isWhitespace

/-- Leading-whitespace strip, first half of `str::trim`. -/
def ltrim (s : Str) : Str := s.dropWhile isWS

/-- Trailing-whitespace strip, second half of `str::trim`. -/
def rtrim (s : Str) : Str := (s.reverse.dropWhile isWS).reverse

/-- Model of Rust `str::trim`. -/
def trim (s : Str) : Str := rtrim (ltrim s)

/-- Model of Rust `str::strip_prefix`: the pattern comes first. -/
def dropPre : Str → Str → Option Str
  | [], s => some s
  | _ :: _, [] => none
  | p :: ps, c :: cs => if p = c then dropPre ps cs else none

/-- Model of Rust `str::starts_with`. -/
def startsWith (p s : Str) : Bool := (dropPre p s).isSome

/-- Model of Rust `str::strip_suffix` with a one-character pattern. -/
def stripSuffixChar (c : Char) (s : Str) : Option Str :=
  match s.getLast? with
  | some d => if d = c then some s.dropLast else none
  | none => none

/-- A reference table (Rust `HashMap<String, String>`) as an association list. -/
abbrev RefTable := List (Str × Str)

/-- First-match lookup in a reference table (Rust `HashMap::get`). -/
def lookupRef (refs : RefTable) (key : Str) : Option Str :=
  match refs with
  | [] => none
  | (k, v) :: rest => if k = key then some v else lookupRef rest key

/-- `ResolveRefError` from `src/selectors/ref.rs`. -/
inductive ResolveRefError where
  | InvalidFormat (selector : Str)
  | NotFound (refId : Str)
deriving DecidableEq, Repr

/-- `is_valid_ref_token` from `src/selectors/ref.rs`: the letter `e`
followed by one or more ASCII digits and nothing else. -/
def is_valid_ref_token (token : Str) : Bool :=
  match token with
  | 'e' :: rest => rest.all Char.isDigit && !rest.isEmpty
  | _ => false

/-- `parse_ref` from `src/selectors/ref.rs`: trim, unwrap the accepted
reference forms `[ref=eN]`, `ref=eN`, bare `eN`, and validate the token. -/
def parse_ref (selector : Str) : Option Str :=
  let trimmed := trim selector
  let token? : Option Str :=
    match dropPre (str "[ref=") trimmed with
    | some inner => stripSuffixChar ']' inner
    | none =>
      match dropPre (str "ref=") trimmed with
      | some inner => some inner
      | none => some trimmed
  match token? with
  | none => none
  | some token => if is_valid_ref_token token then some token else none

/-- `resolve_selector` from `src/selectors/ref.rs`. -/
def resolve_selector (selector : Str) (refs : RefTable) :
    Except ResolveRefError Str :=
  let trimmed := trim selector
  match parse_ref trimmed with
  | some refId =>
    match lookupRef refs refId with
    | some v => Except.ok v
    | none => Except.error (ResolveRefError.NotFound refId)
  | none =>
    if startsWith (str "ref=") trimmed || startsWith (str "[ref=") trimmed then
      Except.error (ResolveRefError.InvalidFormat trimmed)
    else
      Except.ok selector

/-- Modelled from the spec (§4.2): the token extracted from the three
accepted reference forms `[ref=eN]`, `ref=eN`, bare `eN`; `none` when a
bracket-opened form has no closing bracket (no well-formed token exists). -/
def refFormToken (s : Str) : Option Str :=
  match dropPre (str "[ref=") s with
  | some inner => stripSuffixChar ']' inner
  | none =>
    match dropPre (str "ref=") s with
    | some inner => some inner
    | none => some s

/-- Does the (trimmed) input carry an explicit reference prefix? -/
def hasRefPre (s : Str) : Bool :=
  startsWith (str "ref=") s || startsWith (str "[ref=") s

/-- Modelled from the spec (§4.2 and §8): the claimed case analysis of the
ref resolver.  A reference-form input with a grammar-valid token resolves
through the table (`Ok` on a hit, `StaleRef`/`NotFound` naming the bare
token on a miss); a `ref=`/`[ref=`-prefixed input whose token violates the
`e`+digits grammar (including an unterminated bracket form, which has no
token at all) is an `InvalidFormat` failure; anything else passes through
unchanged as a literal selector. -/
def resolve_selector_specified (selector : Str) (refs : RefTable) :
    Except ResolveRefError Str :=
  let trimmed := trim selector
  match refFormToken trimmed with
  | some t =>
    if is_valid_ref_token t then
      match lookupRef refs t with
      | some v => Except.ok v
      | none => Except.error (ResolveRefError.NotFound t)
    else if hasRefPre trimmed then
      Except.error (ResolveRefError.InvalidFormat trimmed)
    else
      Except.ok selector
  | none => Except.error (ResolveRefError.InvalidFormat trimmed)

-- ── String lemmas ──────────────────────────────────────────────────────

theorem dropWhile_ws_eq_self {s : Str} (h : ∀ c ∈ s, isWS c = false) :
    s.dropWhile isWS = s := by
  cases s with
  | nil => rfl
  | cons c cs =>
    have hc : isWS c = false := h c (List.mem_cons_self c cs)
    simp [List.dropWhile_cons, hc]

theorem ltrim_eq_self {s : Str} (h : ∀ c ∈ s, isWS c = false) : ltrim s = s :=
  dropWhile_ws_eq_self h

theorem rtrim_eq_self {s : Str} (h : ∀ c ∈ s, isWS c = false) : rtrim s = s := by
  unfold rtrim
  rw [dropWhile_ws_eq_self (by intro c hc; exact h c (List.mem_reverse.mp hc))]
  exact s.reverse_reverse

theorem trim_eq_self {s : Str} (h : ∀ c ∈ s, isWS c = false) : trim s = s := by
  unfold trim
  rw [ltrim_eq_self h, rtrim_eq_self h]

theorem ltrim_head_not_ws {s : Str} {c : Char} {cs : Str}
    (h : ltrim s = c :: cs) : isWS c = false := by
  have h0 := List.head?_dropWhile_not isWS s
  rw [show List.dropWhile isWS s = c :: cs from h] at h0
  simpa using h0

theorem dropWhile_ws_idem (s : Str) :
    (s.dropWhile isWS).dropWhile isWS = s.dropWhile isWS := by
  cases hd : s.dropWhile isWS with
  | nil => rfl
  | cons c cs =>
    have hc : isWS c = false := ltrim_head_not_ws hd
    simp [List.dropWhile_cons, hc]

theorem ltrim_idem (s : Str) : ltrim (ltrim s) = ltrim s :=
  dropWhile_ws_idem s

theorem rtrim_idem (s : Str) : rtrim (rtrim s) = rtrim s := by
  unfold rtrim
  rw [List.reverse_reverse, dropWhile_ws_idem]

theorem rtrim_isPrefix (s : Str) : rtrim s <+: s := by
  unfold rtrim
  rw [← List.reverse_suffix, List.reverse_reverse]
  exact List.dropWhile_suffix isWS

theorem ltrim_rtrim_ltrim (s : Str) :
    ltrim (rtrim (ltrim s)) = rtrim (ltrim s) := by
  cases hr : rtrim (ltrim s) with
  | nil => rfl
  | cons c cs =>
    obtain ⟨t, ht⟩ := rtrim_isPrefix (ltrim s)
    rw [hr] at ht
    have hlt : ltrim s = c :: (cs ++ t) := by rw [← ht]; rfl
    have hc : isWS c = false := ltrim_head_not_ws hlt
    show (c :: cs).dropWhile isWS = c :: cs
    simp [List.dropWhile_cons, hc]

theorem trim_trim (s : Str) : trim (trim s) = trim s := by
  show rtrim (ltrim (rtrim (ltrim s))) = rtrim (ltrim s)
  rw [ltrim_rtrim_ltrim, rtrim_idem]

theorem isDigit_not_isWS {c : Char} (h : c.isDigit = true) : isWS c = false := by
  unfold isWS
  by_contra hw
  rw [Bool.not_eq_false] at hw
  simp only [Char.isWhitespace, Bool.or_eq_true, decide_eq_true_iff] at hw
  rcases hw with ((h1 | h1) | h1) | h1 <;> (subst h1; exact absurd h (by decide))

theorem valid_token_shape {t : Str} (h : is_valid_ref_token t = true) :
    ∃ rest, t = 'e' :: rest ∧ rest.all Char.isDigit = true ∧ rest ≠ [] := by
  unfold is_valid_ref_token at h
  split at h
  next rest =>
    simp only [Bool.and_eq_true] at h
    refine ⟨rest, rfl, h.1, ?_⟩
    have := h.2
    simpa using this
  next => exact absurd h (by simp)

theorem valid_token_no_ws {t : Str} (h : is_valid_ref_token t = true) :
    ∀ c ∈ t, isWS c = false := by
  obtain ⟨rest, rfl, hall, -⟩ := valid_token_shape h
  intro c hc
  rcases List.mem_cons.mp hc with rfl | hc
  · decide
  · exact isDigit_not_isWS (List.all_eq_true.mp hall c hc)

theorem dropPre_cons_ne {p c : Char} {ps cs : Str} (h : ¬ p = c) :
    dropPre (p :: ps) (c :: cs) = none := by
  simp [dropPre, h]

theorem dropPre_self_append (p s : Str) : dropPre p (p ++ s) = some s := by
  induction p with
  | nil => rfl
  | cons c cs ih => simp [dropPre, ih]

theorem no_ws_of_all {s : Str} (h : s.all (fun c => !(isWS c)) = true) :
    ∀ c ∈ s, isWS c = false := by
  intro c hc
  have := List.all_eq_true.mp h c hc
  simpa using this

theorem append_no_ws {s1 s2 : Str} (h1 : ∀ c ∈ s1, isWS c = false)
    (h2 : ∀ c ∈ s2, isWS c = false) : ∀ c ∈ s1 ++ s2, isWS c = false := by
  intro c hc
  rcases List.mem_append.mp hc with hc | hc
  exacts [h1 c hc, h2 c hc]

theorem stripSuffixChar_concat (c : Char) (t : Str) :
    stripSuffixChar c (t ++ [c]) = some t := by
  unfold stripSuffixChar
  rw [List.getLast?_concat]
  simp

theorem dropPre_brack_token {t : Str} (h : is_valid_ref_token t = true) :
    dropPre (str "[ref=") t = none := by
  obtain ⟨rest, rfl, -, -⟩ := valid_token_shape h
  rw [show str "[ref=" = '[' :: str "ref=" from rfl]
  exact dropPre_cons_ne (by decide)

theorem dropPre_refeq_token {t : Str} (h : is_valid_ref_token t = true) :
    dropPre (str "ref=") t = none := by
  obtain ⟨rest, rfl, -, -⟩ := valid_token_shape h
  rw [show str "ref=" = 'r' :: str "ef=" from rfl]
  exact dropPre_cons_ne (by decide)

theorem parse_ref_bare {t : Str} (h : is_valid_ref_token t = true) :
    parse_ref t = some t := by
  simp [parse_ref, trim_eq_self (valid_token_no_ws h), dropPre_brack_token h,
    dropPre_refeq_token h, h]

theorem parse_ref_refeq {t : Str} (h : is_valid_ref_token t = true) :
    parse_ref (str "ref=" ++ t) = some t := by
  have hnw : ∀ c ∈ str "ref=" ++ t, isWS c = false :=
    append_no_ws (no_ws_of_all (by decide)) (valid_token_no_ws h)
  have hb : dropPre (str "[ref=") (str "ref=" ++ t) = none := by
    rw [show str "ref=" ++ t = 'r' :: (str "ef=" ++ t) from rfl,
      show str "[ref=" = '[' :: str "ref=" from rfl]
    exact dropPre_cons_ne (by decide)
  simp [parse_ref, trim_eq_self hnw, hb, dropPre_self_append, h]

theorem parse_ref_brack {t : Str} (h : is_valid_ref_token t = true) :
    parse_ref (str "[ref=" ++ (t ++ str "]")) = some t := by
  have hnw : ∀ c ∈ str "[ref=" ++ (t ++ str "]"), isWS c = false :=
    append_no_ws (no_ws_of_all (by decide))
      (append_no_ws (valid_token_no_ws h) (no_ws_of_all (by decide)))
  have hb : dropPre (str "[ref=") (str "[ref=" ++ (t ++ str "]")) =
      some (t ++ str "]") := dropPre_self_append _ _
  have hs : stripSuffixChar ']' (t ++ str "]") = some t := by
    rw [show str "]" = [']'] from rfl]
    exact stripSuffixChar_concat _ _
  simp [parse_ref, trim_eq_self hnw, hb, hs, h]

/-- `parse_ref` factored through the reference-form unwrap. -/
theorem parse_ref_eq (s : Str) :
    parse_ref s =
      match refFormToken (trim s) with
      | none => none
      | some tk => if is_valid_ref_token tk then some tk else none := rfl

-- ── C1 / C2 ────────────────────────────────────────────────────────────

/-- C1: for every reference table and every grammar-valid token mapped in
it, resolving the bare token, `ref=` form, and `[ref=...]` form each
returns `Ok` with the identical mapped concrete selector. -/
theorem resolve_selector_three_forms_ok (refs : RefTable) (t v : Str)
    (hval : is_valid_ref_token t = true)
    (hmem : lookupRef refs t = some v) :
    resolve_selector t refs = Except.ok v ∧
    resolve_selector (str "ref=" ++ t) refs = Except.ok v ∧
    resolve_selector (str "[ref=" ++ t ++ str "]") refs = Except.ok v := by
  have hnw := valid_token_no_ws hval
  refine ⟨?_, ?_, ?_⟩
  · simp [resolve_selector, trim_eq_self hnw, parse_ref_bare hval, hmem]
  · have hnw2 : ∀ c ∈ str "ref=" ++ t, isWS c = false :=
      append_no_ws (no_ws_of_all (by decide)) hnw
    simp [resolve_selector, trim_eq_self hnw2, parse_ref_refeq hval, hmem]
  · have hnw3 : ∀ c ∈ str "[ref=" ++ (t ++ str "]"), isWS c = false :=
      append_no_ws (no_ws_of_all (by decide))
        (append_no_ws hnw (no_ws_of_all (by decide)))
    simp [resolve_selector, trim_eq_self hnw3, parse_ref_brack hval, hmem]

/-- A sample reference table as a snapshot would issue it. -/
def demoRefs : RefTable := [(str "e3", str "#submit-btn")]

/-- Witness for C1 at token `e3`. -/
theorem resolve_selector_three_forms_ok_witness :
    is_valid_ref_token (str "e3") = true ∧
    lookupRef demoRefs (str "e3") = some (str "#submit-btn") ∧
    (resolve_selector (str "e3") demoRefs = Except.ok (str "#submit-btn") ∧
     resolve_selector (str "ref=" ++ str "e3") demoRefs =
       Except.ok (str "#submit-btn") ∧
     resolve_selector (str "[ref=" ++ str "e3" ++ str "]") demoRefs =
       Except.ok (str "#submit-btn")) :=
  ⟨by decide, by decide,
    resolve_selector_three_forms_ok demoRefs (str "e3") (str "#submit-btn")
      (by decide) (by decide)⟩

/-- C2: `resolve_selector`'s outcome is exactly the case analysis the spec
claims (reference form with a valid absent token → `NotFound` naming that
token; `ref=`/`[ref=` prefix with a grammar-violating token → `InvalidFormat`;
valid present token → the mapped selector; anything else → passed through
unchanged). -/
theorem resolve_selector_case_analysis (selector : Str) (refs : RefTable) :
    resolve_selector selector refs = resolve_selector_specified selector refs := by
  simp only [resolve_selector, resolve_selector_specified]
  rw [parse_ref_eq, trim_trim]
  rcases hf : refFormToken (trim selector) with _ | tk
  · have hb : startsWith (str "[ref=") (trim selector) = true := by
      unfold refFormToken at hf
      rcases hd : dropPre (str "[ref=") (trim selector) with _ | inner
      · rw [hd] at hf
        rcases hr : dropPre (str "ref=") (trim selector) with _ | i2 <;>
          rw [hr] at hf <;> simp at hf
      · unfold startsWith
        rw [hd]
        rfl
    simp [hb]
  · by_cases hv : is_valid_ref_token tk = true
    · simp [hv]
    · have hv' : is_valid_ref_token tk = false := by
        simpa using hv
      simp only [hv', if_false, Bool.false_eq_true]
      rfl

-- ── Script execution engine (src/tools/script.rs) ─────────────────────

/-- ASCII apostrophe, used inside diagnostic messages. -/
def quoteChar : Char := Char.ofNat 39

/-- Lexicographic comparison on modelled strings (Rust `String` `Ord`). -/
def lexLe : Str → Str → Bool
  | [], _ => true
  | _ :: _, [] => false
  | a :: as1, b :: bs1 =>
    if a.val < b.val then true
    else if b.val < a.val then false
    else lexLe as1 bs1

/-- Insertion step of `sortStrs`. -/
def insertSorted (x : Str) : List Str → List Str
  | [] => [x]
  | y :: ys => if lexLe x y then x :: y :: ys else y :: insertSorted x ys

/-- Model of `Vec::sort` on the collected table keys. -/
def sortStrs : List Str → List Str
  | [] => []
  | x :: xs => insertSorted x (sortStrs xs)

/-- `keys.last()` on a non-empty list. -/
def lastStr (x : Str) : List Str → Str
  | [] => x
  | y :: ys => lastStr y ys

/-- The `NotFound` diagnostic built by `ScriptContext::resolve_ref`
(script.rs lines 74-85): sorted key range plus re-snapshot guidance. -/
def staleRefMessage (refId : Str) (refs : RefTable) : Str :=
  let keys := sortStrs (refs.map Prod.fst)
  let range :=
    match keys with
    | [] => str "none"
    | k :: ks => k ++ str "-" ++ lastStr k ks
  str "Ref " ++ [quoteChar] ++ refId ++ [quoteChar] ++
    str " not found. Available: " ++ range ++
    str ". Call page.snapshot() to refresh."

/-- The no-table diagnostic of `ScriptContext::resolve_ref` (line 90). -/
def noSnapshotMessage : Str := str "No snapshot taken yet. Call page.snapshot() first."

/-- `ScriptContext::resolve_ref` (script.rs lines 69-94): with a table,
`resolve_selector` hits return the mapped selector, `NotFound` becomes an
`Err` message, and `InvalidFormat` passes the original selector through;
with no table, any parseable ref token is an `Err`, everything else passes
through. -/
def scriptResolveRef (refs? : Option RefTable) (selector : Str) :
    Except Str Str :=
  match refs? with
  | some refs =>
    match resolve_selector selector refs with
    | Except.ok resolved => Except.ok resolved
    | Except.error (ResolveRefError.NotFound refId) =>
      Except.error (staleRefMessage refId refs)
    | Except.error (ResolveRefError.InvalidFormat _) => Except.ok selector
  | none =>
    if (parse_ref selector).isSome then Except.error noSnapshotMessage
    else Except.ok selector

instance exceptDecEq {ε α : Type} [DecidableEq ε] [DecidableEq α] :
    DecidableEq (Except ε α)
  | Except.ok a, Except.ok b =>
    if h : a = b then isTrue (by rw [h])
    else isFalse (by intro he; cases he; exact h rfl)
  | Except.ok _, Except.error _ => isFalse (by intro h; cases h)
  | Except.error _, Except.ok _ => isFalse (by intro h; cases h)
  | Except.error e, Except.error f =>
    if h : e = f then isTrue (by rw [h])
    else isFalse (by intro he; cases he; exact h rfl)

/-- Modelled from the spec (§4.3): the embedded interpreter (the external
`boa_engine` crate) is abstracted as the ordered trace of capability and
console calls a script performs.  Each capability call carries the outcome
its asynchronous primitive would report; `throwJs` stands for any other
uncaught script exception. -/
inductive Event where
  | consoleLog (args : List Str)
  | click (selector : Str) (outcome : Except Str Str)
  | snapshotCall (outcome : Except Str (Str × RefTable))
  | screenshotCall (outcome : Except Str Str)
  | throwJs (msg : Str)
deriving DecidableEq

/-- The mutable parts of `ScriptContext` (script.rs lines 58-66). -/
structure ScriptState where
  output_lines : List Str
  screenshots : List Str
  snapshot_refs : Option RefTable
deriving DecidableEq

/-- `Vec::join` with a separator. -/
def joinSep (sep : Str) : List Str → Str
  | [] => []
  | [x] => x
  | x :: y :: rest => x ++ sep ++ joinSep sep (y :: rest)

/-- One capability/console call as the native adapters implement it:
`make_console_log` joins the stringified arguments with spaces and appends
one output line; `make_click` resolves its selector through
`ScriptContext::resolve_ref` and then runs the primitive, either failure
becoming a thrown exception; `make_snapshot` replaces the in-flight table
on success; `make_screenshot` appends the captured payload on success.
`some msg` is a thrown JS exception terminating the script. -/
def stepEvent (st : ScriptState) (e : Event) : ScriptState × Option Str :=
  match e with
  | Event.consoleLog args =>
    ({ st with output_lines := st.output_lines ++ [joinSep (str " ") args] }, none)
  | Event.click sel outcome =>
    match scriptResolveRef st.snapshot_refs sel with
    | Except.error m => (st, some m)
    | Except.ok _ =>
      match outcome with
      | Except.error m => (st, some m)
      | Except.ok _ => (st, none)
  | Event.snapshotCall outcome =>
    match outcome with
    | Except.error m => (st, some m)
    | Except.ok (_text, refs) => ({ st with snapshot_refs := some refs }, none)
  | Event.screenshotCall outcome =>
    match outcome with
    | Except.error m => (st, some m)
    | Except.ok b64 => ({ st with screenshots := st.screenshots ++ [b64] }, none)
  | Event.throwJs m => (st, some m)

/-- Run the trace, stopping at the first thrown exception. -/
def runEvents (st : ScriptState) : List Event → ScriptState × Option Str
  | [] => (st, none)
  | e :: rest =>
    match stepEvent st e with
    | (st2, none) => runEvents st2 rest
    | (st2, some m) => (st2, some m)

/-- `execute_in_boa` (script.rs lines 171-195): a parse failure is an
`Err` before any statement runs; otherwise the statements execute in
order. -/
def executeScript (st : ScriptState) (prog : Except Str (List Event)) :
    ScriptState × Option Str :=
  match prog with
  | Except.error m => (st, some m)
  | Except.ok evs => runEvents st evs

/-- `ScriptResult` (script.rs lines 25-32). -/
structure ScriptResult where
  success : Bool
  output : Str
  error : Option Str
  elapsed_ms : Nat
  url : Str
  title : Str
deriving DecidableEq

/-- `run_script` (script.rs lines 99-167): seed the context with the
caller's table, execute, then assemble the `ScriptResult` (joined output
lines, success flag, error message), the collected screenshots, and the
final in-flight reference table.  The elapsed time and the final page
URL/title come from the transport and are passed in as parameters. -/
def run_script (prog : Except Str (List Event)) (initial_refs : Option RefTable)
    (elapsed_ms : Nat) (url title : Str) :
    ScriptResult × List Str × Option RefTable :=
  let st0 : ScriptState := ⟨[], [], initial_refs⟩
  let res := executeScript st0 prog
  let st := res.1
  let output := joinSep (str "\n") st.output_lines
  match res.2 with
  | none =>
    (⟨true, output, none, elapsed_ms, url, title⟩, st.screenshots, st.snapshot_refs)
  | some m =>
    (⟨false, output, some m, elapsed_ms, url, title⟩, st.screenshots, st.snapshot_refs)

/-- Console lines a trace contributes (in order). -/
def consoleLinesOf : List Event → List Str
  | [] => []
  | Event.consoleLog args :: rest => joinSep (str " ") args :: consoleLinesOf rest
  | _ :: rest => consoleLinesOf rest

/-- Screenshots a trace contributes (in capture order). -/
def screenshotsOf : List Event → List Str
  | [] => []
  | Event.screenshotCall (Except.ok b64) :: rest => b64 :: screenshotsOf rest
  | _ :: rest => screenshotsOf rest

/-- The table of the last successful snapshot in a trace, if any. -/
def lastSnapOf : List Event → Option RefTable
  | [] => none
  | Event.snapshotCall (Except.ok (_t, refs)) :: rest =>
    match lastSnapOf rest with
    | some r2 => some r2
    | none => some refs
  | _ :: rest => lastSnapOf rest

/-- A failing statement leaves the context state untouched; every mutation
in the adapters happens only after the fallible part succeeded. -/
theorem stepEvent_error_state {st st2 : ScriptState} {e : Event} {m : Str}
    (h : stepEvent st e = (st2, some m)) : st2 = st := by
  cases e <;> simp only [stepEvent] at h
  case consoleLog args => simp at h
  case click sel outcome =>
    split at h
    · simp at h
      exact h.1.symm
    · split at h
      · simp at h
        exact h.1.symm
      · simp at h
  case snapshotCall outcome =>
    split at h
    · simp at h
      exact h.1.symm
    · simp at h
  case screenshotCall outcome =>
    split at h
    · simp at h
      exact h.1.symm
    · simp at h
  case throwJs m0 =>
    simp at h
    exact h.1.symm

/-- A cleanly completed trace appends exactly its console lines and
screenshots, and its last snapshot (if any) supersedes the seeded table. -/
theorem runEvents_none_state {evs : List Event} :
    ∀ {st st2 : ScriptState}, runEvents st evs = (st2, none) →
      st2.output_lines = st.output_lines ++ consoleLinesOf evs ∧
      st2.screenshots = st.screenshots ++ screenshotsOf evs ∧
      st2.snapshot_refs =
        (match lastSnapOf evs with
         | some r => some r
         | none => st.snapshot_refs) := by
  induction evs with
  | nil =>
    intro st st2 h
    unfold runEvents at h
    simp at h
    rcases h with ⟨rfl, -⟩
    simp [consoleLinesOf, screenshotsOf, lastSnapOf]
  | cons e rest ih =>
    intro st st2 h
    unfold runEvents at h
    cases hs : stepEvent st e with
    | mk st1 err =>
      rw [hs] at h
      cases err with
      | some m0 => simp at h
      | none =>
        obtain ⟨h1, h2, h3⟩ := ih h
        cases e with
        | consoleLog args =>
          simp only [stepEvent, Prod.mk.injEq] at hs
          rw [← hs.1] at h1 h2 h3
          refine ⟨?_, ?_, ?_⟩ <;>
            simp_all [consoleLinesOf, screenshotsOf, lastSnapOf]
        | click sel outcome =>
          have hst : st1 = st := by
            simp only [stepEvent] at hs
            split at hs
            · simp at hs
            · split at hs
              · simp at hs
              · simp at hs
                exact hs.symm
          subst hst
          refine ⟨?_, ?_, ?_⟩ <;> simp_all [consoleLinesOf, screenshotsOf, lastSnapOf]
        | snapshotCall outcome =>
          cases outcome with
          | error m0 => simp [stepEvent] at hs
          | ok p =>
            obtain ⟨t0, refs0⟩ := p
            simp only [stepEvent, Prod.mk.injEq] at hs
            obtain ⟨hA, -⟩ := hs
            subst hA
            dsimp only at h1 h2 h3
            refine ⟨by simpa [consoleLinesOf] using h1,
              by simpa [screenshotsOf] using h2, ?_⟩
            rw [h3]
            simp only [lastSnapOf]
            cases hl : lastSnapOf rest <;> simp [hl]
        | screenshotCall outcome =>
          cases outcome with
          | error m0 => simp [stepEvent] at hs
          | ok b64 =>
            simp only [stepEvent, Prod.mk.injEq] at hs
            rw [← hs.1] at h1 h2 h3
            refine ⟨?_, ?_, ?_⟩ <;>
              simp_all [consoleLinesOf, screenshotsOf, lastSnapOf]
        | throwJs m0 => simp [stepEvent] at hs

/-- A failed trace splits into a cleanly-run prefix, the failing
statement (which does not change the state), and an unexecuted tail. -/
theorem runEvents_some_decomp {evs : List Event} :
    ∀ {st st2 : ScriptState} {m : Str}, runEvents st evs = (st2, some m) →
      ∃ pre e suf, evs = pre ++ e :: suf ∧
        runEvents st pre = (st2, none) ∧
        stepEvent st2 e = (st2, some m) := by
  induction evs with
  | nil =>
    intro st st2 m h
    unfold runEvents at h
    simp at h
  | cons e rest ih =>
    intro st st2 m h
    unfold runEvents at h
    cases hs : stepEvent st e with
    | mk st1 err =>
      rw [hs] at h
      cases err with
      | none =>
        obtain ⟨pre, e2, suf, hsplit, hpre, hstep⟩ := ih h
        refine ⟨e :: pre, e2, suf, by simp [hsplit], ?_, hstep⟩
        unfold runEvents
        rw [hs]
        exact hpre
      | some m0 =>
        simp at h
        obtain ⟨rfl, rfl⟩ := h
        have hst : st1 = st := stepEvent_error_state hs
        subst hst
        exact ⟨[], e, rest, rfl, rfl, hs⟩

/-- Running a concatenated trace runs the first part, then the second
from the reached state unless the first already failed. -/
theorem runEvents_append (xs ys : List Event) :
    ∀ st, runEvents st (xs ++ ys) =
      (match runEvents st xs with
       | (st1, none) => runEvents st1 ys
       | (st1, some m) => (st1, some m)) := by
  induction xs with
  | nil =>
    intro st
    simp [runEvents]
  | cons e rest ih =>
    intro st
    show runEvents st (e :: (rest ++ ys)) = _
    rw [show runEvents st (e :: (rest ++ ys)) =
          (match stepEvent st e with
           | (st2, none) => runEvents st2 (rest ++ ys)
           | (st2, some m) => (st2, some m)) from rfl,
        show runEvents st (e :: rest) =
          (match stepEvent st e with
           | (st2, none) => runEvents st2 rest
           | (st2, some m) => (st2, some m)) from rfl]
    cases hs : stepEvent st e with
    | mk st1 err =>
      cases err with
      | none => exact ih st1
      | some m => rfl

-- ── C3 ─────────────────────────────────────────────────────────────────

/-- C3 counterexample: a resolution failure of kind `InvalidFormat` does
NOT become a thrown exception — `ScriptContext::resolve_ref` swallows it
and passes the original selector through, and the capability call then
proceeds with that selector. -/
theorem scriptResolveRef_invalidformat_not_thrown :
    resolve_selector (str "ref=foo") demoRefs =
      Except.error (ResolveRefError.InvalidFormat (str "ref=foo")) ∧
    scriptResolveRef (some demoRefs) (str "ref=foo") =
      Except.ok (str "ref=foo") ∧
    (stepEvent ⟨[], [], some demoRefs⟩
        (Event.click (str "ref=foo") (Except.ok (str "Clicked")))).2 = none := by
  decide

/-- C3 (amended): only a `StaleRef`/`NotFound` resolution failure becomes
a thrown exception inside the script (carrying the stale-ref diagnostic);
an `InvalidFormat` failure passes the original selector through unchanged
and the capability call proceeds, while a successful resolution yields the
mapped selector.  A thrown resolution error terminates the capability call
with the state untouched. -/
theorem scriptResolveRef_stale_throws (refs : RefTable) (s : Str) :
    (∀ t, resolve_selector s refs = Except.error (ResolveRefError.NotFound t) →
      scriptResolveRef (some refs) s = Except.error (staleRefMessage t refs)) ∧
    (∀ u, resolve_selector s refs =
        Except.error (ResolveRefError.InvalidFormat u) →
      scriptResolveRef (some refs) s = Except.ok s) ∧
    (∀ v, resolve_selector s refs = Except.ok v →
      scriptResolveRef (some refs) s = Except.ok v) ∧
    (∀ (st : ScriptState) outcome m, st.snapshot_refs = some refs →
      scriptResolveRef (some refs) s = Except.error m →
      stepEvent st (Event.click s outcome) = (st, some m)) := by
  refine ⟨?_, ?_, ?_, ?_⟩
  · intro t ht
    simp [scriptResolveRef, ht]
  · intro u hu
    simp [scriptResolveRef, hu]
  · intro v hv
    simp [scriptResolveRef, hv]
  · intro st outcome m hst hm
    simp [stepEvent, hst, hm]

/-- Witness for C3's amended theorem: token `e7` is absent from the
sample table, so resolution fails stale and the failure is thrown. -/
theorem scriptResolveRef_stale_throws_witness :
    resolve_selector (str "e7") demoRefs =
      Except.error (ResolveRefError.NotFound (str "e7")) ∧
    scriptResolveRef (some demoRefs) (str "e7") =
      Except.error (staleRefMessage (str "e7") demoRefs) :=
  ⟨by decide,
    (scriptResolveRef_stale_throws demoRefs (str "e7")).1 (str "e7") (by decide)⟩

-- ── C4 ─────────────────────────────────────────────────────────────────

/-- C4: `run_script` produces a `ScriptResult` exactly once for every
invocation — it is a total function whose result always has a coherent
success flag and error field — and every parse failure and every
exception thrown while running (uncaught throw or converted capability
error) is caught and returned as `success = false` with an error message,
never escaping. -/
theorem run_script_always_returns_result (prog : Except Str (List Event))
    (init : Option RefTable) (ms : Nat) (url title : Str) :
    (((run_script prog init ms url title).1.success = true ∧
      (run_script prog init ms url title).1.error = none) ∨
     ((run_script prog init ms url title).1.success = false ∧
      ∃ m, (run_script prog init ms url title).1.error = some m)) ∧
    (∀ m, prog = Except.error m →
      (run_script prog init ms url title).1.success = false ∧
      (run_script prog init ms url title).1.error = some m) ∧
    (∀ evs st m, prog = Except.ok evs →
      runEvents ⟨[], [], init⟩ evs = (st, some m) →
      (run_script prog init ms url title).1.success = false ∧
      (run_script prog init ms url title).1.error = some m) ∧
    (∀ evs st, prog = Except.ok evs →
      runEvents ⟨[], [], init⟩ evs = (st, none) →
      (run_script prog init ms url title).1.success = true ∧
      (run_script prog init ms url title).1.error = none) := by
  refine ⟨?_, ?_, ?_, ?_⟩
  · cases prog with
    | error m =>
      right
      refine ⟨?_, m, ?_⟩ <;> simp [run_script, executeScript]
    | ok evs =>
      cases hr : runEvents ⟨[], [], init⟩ evs with
      | mk st err =>
        cases err with
        | none =>
          left
          constructor <;> simp [run_script, executeScript, hr]
        | some m =>
          right
          refine ⟨?_, m, ?_⟩ <;> simp [run_script, executeScript, hr]
  · intro m hm
    subst hm
    constructor <;> simp [run_script, executeScript]
  · intro evs st m hp hr
    subst hp
    constructor <;> simp [run_script, executeScript, hr]
  · intro evs st hp hr
    subst hp
    constructor <;> simp [run_script, executeScript, hr]

/-- Witness for C4 at a concrete parse failure. -/
theorem run_script_always_returns_result_witness :
    (run_script (Except.error (str "SyntaxError: unexpected token")) none 5
        (str "about:blank") (str "t")).1.success = false ∧
    (run_script (Except.error (str "SyntaxError: unexpected token")) none 5
        (str "about:blank") (str "t")).1.error =
      some (str "SyntaxError: unexpected token") :=
  (run_script_always_returns_result
      (Except.error (str "SyntaxError: unexpected token")) none 5
      (str "about:blank") (str "t")).2.1
    (str "SyntaxError: unexpected token") rfl

-- ── C5 ─────────────────────────────────────────────────────────────────

/-- C5: a script that fails at a statement (after a cleanly-run prefix)
returns `success = false` with the thrown message, its `output` is the
newline-join of exactly the console lines appended by the prefix — the
unexecuted tail contributes nothing and nothing is discarded — and the
returned screenshot list is exactly the prefix's captures in order. -/
theorem run_script_failure_preserves_prefix (init : Option RefTable)
    (ms : Nat) (url title : Str) (pre : List Event) (e : Event)
    (suf : List Event) (st1 : ScriptState) (m : Str)
    (hpre : runEvents ⟨[], [], init⟩ pre = (st1, none))
    (hfail : (stepEvent st1 e).2 = some m) :
    (run_script (Except.ok (pre ++ e :: suf)) init ms url title).1.success = false ∧
    (run_script (Except.ok (pre ++ e :: suf)) init ms url title).1.error = some m ∧
    (run_script (Except.ok (pre ++ e :: suf)) init ms url title).1.output =
      joinSep (str "\n") (consoleLinesOf pre) ∧
    (run_script (Except.ok (pre ++ e :: suf)) init ms url title).2.1 =
      screenshotsOf pre := by
  have hse : stepEvent st1 e = ((stepEvent st1 e).1, some m) := by
    rw [← hfail]
  have hst : (stepEvent st1 e).1 = st1 := stepEvent_error_state hse
  rw [hst] at hse
  have hrun : runEvents ⟨[], [], init⟩ (pre ++ e :: suf) = (st1, some m) := by
    rw [runEvents_append, hpre]
    show runEvents st1 (e :: suf) = _
    rw [show runEvents st1 (e :: suf) =
          (match stepEvent st1 e with
           | (st2, none) => runEvents st2 suf
           | (st2, some m2) => (st2, some m2)) from rfl, hse]
  obtain ⟨hlines, hshots, -⟩ := runEvents_none_state hpre
  simp only [List.nil_append] at hlines hshots
  refine ⟨?_, ?_, ?_, ?_⟩ <;> simp [run_script, executeScript, hrun, hlines, hshots]

/-- Witness for C5: one logged line, then an unresolvable-selector style
throw, then a line that never runs. -/
theorem run_script_failure_preserves_prefix_witness :
    runEvents ⟨[], [], none⟩ [Event.consoleLog [str "step 1"]] =
      (⟨[str "step 1"], [], none⟩, none) ∧
    (stepEvent ⟨[str "step 1"], [], none⟩ (Event.throwJs (str "boom"))).2 =
      some (str "boom") ∧
    ((run_script
        (Except.ok ([Event.consoleLog [str "step 1"]] ++
          Event.throwJs (str "boom") :: [Event.consoleLog [str "after"]]))
        none 7 (str "u") (str "t")).1.success = false ∧
     (run_script
        (Except.ok ([Event.consoleLog [str "step 1"]] ++
          Event.throwJs (str "boom") :: [Event.consoleLog [str "after"]]))
        none 7 (str "u") (str "t")).1.error = some (str "boom") ∧
     (run_script
        (Except.ok ([Event.consoleLog [str "step 1"]] ++
          Event.throwJs (str "boom") :: [Event.consoleLog [str "after"]]))
        none 7 (str "u") (str "t")).1.output =
       joinSep (str "\n") (consoleLinesOf [Event.consoleLog [str "step 1"]]) ∧
     (run_script
        (Except.ok ([Event.consoleLog [str "step 1"]] ++
          Event.throwJs (str "boom") :: [Event.consoleLog [str "after"]]))
        none 7 (str "u") (str "t")).2.1 =
       screenshotsOf [Event.consoleLog [str "step 1"]]) :=
  ⟨by decide, by decide,
    run_script_failure_preserves_prefix none 7 (str "u") (str "t")
      [Event.consoleLog [str "step 1"]] (Event.throwJs (str "boom"))
      [Event.consoleLog [str "after"]] ⟨[str "step 1"], [], none⟩
      (str "boom") (by decide) (by decide)⟩

-- ── C6 ─────────────────────────────────────────────────────────────────

/-- C6: a successful snapshot capability call replaces the in-flight
reference table outright; every capability call resolves against the
current (newest) in-flight table; and the table `run_script` hands back
to the caller is the table of the last snapshot the executed statements
took — the untouched seed when none did — for completed and for failed
runs alike. -/
theorem run_script_refs_last_snapshot (init : Option RefTable) (ms : Nat)
    (url title : Str) :
    (∀ (st : ScriptState) (t : Str) (refs : RefTable),
      stepEvent st (Event.snapshotCall (Except.ok (t, refs))) =
        ({ st with snapshot_refs := some refs }, none)) ∧
    (∀ (st : ScriptState) (sel : Str) (outcome : Except Str Str),
      (stepEvent st (Event.click sel outcome)).2 =
        (match scriptResolveRef st.snapshot_refs sel with
         | Except.error m => some m
         | Except.ok _ =>
           match outcome with
           | Except.error m => some m
           | Except.ok _ => none)) ∧
    (∀ evs st2, runEvents ⟨[], [], init⟩ evs = (st2, none) →
      (run_script (Except.ok evs) init ms url title).2.2 =
        (match lastSnapOf evs with
         | some r => some r
         | none => init)) ∧
    (∀ pre e suf (st1 : ScriptState) m,
      runEvents ⟨[], [], init⟩ pre = (st1, none) →
      (stepEvent st1 e).2 = some m →
      (run_script (Except.ok (pre ++ e :: suf)) init ms url title).2.2 =
        (match lastSnapOf pre with
         | some r => some r
         | none => init)) := by
  refine ⟨?_, ?_, ?_, ?_⟩
  · intro st t refs
    rfl
  · intro st sel outcome
    simp only [stepEvent]
    rcases scriptResolveRef st.snapshot_refs sel with m | v
    · rfl
    · rcases outcome with m | r <;> rfl
  · intro evs st2 hr
    obtain ⟨-, -, hrefs⟩ := runEvents_none_state hr
    simp [run_script, executeScript, hr, hrefs]
  · intro pre e suf st1 m hpre hfail
    have hse : stepEvent st1 e = ((stepEvent st1 e).1, some m) := by
      rw [← hfail]
    have hst : (stepEvent st1 e).1 = st1 := stepEvent_error_state hse
    rw [hst] at hse
    have hrun : runEvents ⟨[], [], init⟩ (pre ++ e :: suf) = (st1, some m) := by
      rw [runEvents_append, hpre]
      show runEvents st1 (e :: suf) = _
      rw [show runEvents st1 (e :: suf) =
            (match stepEvent st1 e with
             | (st2, none) => runEvents st2 suf
             | (st2, some m2) => (st2, some m2)) from rfl, hse]
    obtain ⟨-, -, hrefs⟩ := runEvents_none_state hpre
    simp [run_script, executeScript, hrun, hrefs]

/-- A second sample table, as produced by an in-script snapshot. -/
def demoRefs2 : RefTable := [(str "e0", str "#login"), (str "e1", str "body > a:nth-of-type(1)")]

/-- Witness for C6: a script whose only statement is a successful
snapshot hands the caller that snapshot's table, superseding the seed. -/
theorem run_script_refs_last_snapshot_witness :
    runEvents ⟨[], [], some demoRefs⟩
        [Event.snapshotCall (Except.ok (str "link", demoRefs2))] =
      (⟨[], [], some demoRefs2⟩, none) ∧
    (run_script (Except.ok [Event.snapshotCall (Except.ok (str "link", demoRefs2))])
        (some demoRefs) 3 (str "u") (str "t")).2.2 =
      (match lastSnapOf [Event.snapshotCall (Except.ok (str "link", demoRefs2))] with
       | some r => some r
       | none => some demoRefs) :=
  ⟨by decide,
    (run_script_refs_last_snapshot (some demoRefs) 3 (str "u") (str "t")).2.2.1
      [Event.snapshotCall (Except.ok (str "link", demoRefs2))]
      ⟨[], [], some demoRefs2⟩ (by decide)⟩

-- ── Shared logs (src/tools/javascript.rs, src/tools/network.rs) ───────

/-- `ConsoleEntry` (javascript.rs lines 51-56).  The `f64` timestamp is
modelled as an abstract `Nat`; no claim computes with it. -/
structure ConsoleEntry where
  level : Str
  text : Str
  timestamp : Nat
deriving DecidableEq

/-- `ConsoleLog::add` (javascript.rs lines 71-77): at 1000 or more
entries, remove the single oldest entry, then push the new one. -/
def consoleLogAdd (entries : List ConsoleEntry) (entry : ConsoleEntry) :
    List ConsoleEntry :=
  if 1000 ≤ entries.length then entries.drop 1 ++ [entry]
  else entries ++ [entry]

/-- `NetworkEntry` (network.rs lines 14-23).  Headers, body preview and
timing carry no claim-relevant information and are omitted. -/
structure NetworkEntry where
  url : Str
  method : Str
  status : Nat
deriving DecidableEq

/-- The lock-protected state of `NetworkLog` (network.rs lines 26-32),
without the atomic pending counter (not touched by `add`). -/
structure NetworkLogState where
  entries : List NetworkEntry
  enabled : Bool
  patterns : List Str
deriving DecidableEq

/-- Model of Rust `str::contains` (substring search). -/
def isSubstr (pat : Str) : Str → Bool
  | [] => pat.isEmpty
  | c :: rest => startsWith pat (c :: rest) || isSubstr pat rest

/-- `NetworkLog::add` (network.rs lines 57-77): drop the entry when
capture is disabled or no configured pattern matches the URL, otherwise
insert with single-eviction at capacity 500. -/
def networkLogAdd (st : NetworkLogState) (entry : NetworkEntry) :
    NetworkLogState :=
  if !st.enabled then st
  else if !st.patterns.isEmpty &&
      !(st.patterns.any (fun p => isSubstr p entry.url)) then st
  else
    { st with
      entries :=
        if 500 ≤ st.entries.length then st.entries.drop 1 ++ [entry]
        else st.entries ++ [entry] }

/-- The shared bounded-insert shape of both `add` implementations. -/
def boundedPush (cap : Nat) (entries : List α) (e : α) : List α :=
  if cap ≤ entries.length then entries.drop 1 ++ [e]
  else entries ++ [e]

theorem consoleLogAdd_eq_boundedPush :
    consoleLogAdd = boundedPush 1000 := rfl

theorem boundedPush_length_le {cap : Nat} (hcap : 0 < cap) (es : List α)
    (e : α) (h : es.length ≤ cap) : (boundedPush cap es e).length ≤ cap := by
  unfold boundedPush
  by_cases hc : cap ≤ es.length
  · rw [if_pos hc]
    simp only [List.length_append, List.length_drop, List.length_cons,
      List.length_nil]
    omega
  · rw [if_neg hc]
    simp only [List.length_append, List.length_cons, List.length_nil]
    omega

/-- Folding bounded inserts over a list keeps exactly the most recent
`cap` elements, in order. -/
theorem foldl_boundedPush {cap : Nat} (hcap : 0 < cap) :
    ∀ (xs acc : List α), acc.length ≤ cap →
      List.foldl (boundedPush cap) acc xs =
        (acc ++ xs).drop (acc.length + xs.length - cap) := by
  intro xs
  induction xs with
  | nil =>
    intro acc h
    simp [Nat.sub_eq_zero_of_le h]
  | cons x xs ih =>
    intro acc h
    rw [List.foldl_cons]
    have hstep : boundedPush cap acc x = (acc ++ [x]).drop (acc.length + 1 - cap) := by
      unfold boundedPush
      by_cases hc : cap ≤ acc.length
      · have hacc : acc.length = cap := Nat.le_antisymm h hc
        rw [if_pos hc, List.drop_append_of_le_length (by omega),
          show acc.length + 1 - cap = 1 by omega]
      · rw [if_neg hc, show acc.length + 1 - cap = 0 by omega, List.drop_zero]
    have hlen : (boundedPush cap acc x).length ≤ cap := boundedPush_length_le hcap acc x h
    rw [hstep] at hlen ⊢
    rw [ih _ hlen]
    have hd : acc.length + 1 - cap ≤ (acc ++ [x]).length := by
      simp only [List.length_append, List.length_cons, List.length_nil]
      omega
    rw [show ((acc ++ [x]).drop (acc.length + 1 - cap)) ++ xs =
          ((acc ++ [x]) ++ xs).drop (acc.length + 1 - cap) from
        (List.drop_append_of_le_length hd).symm]
    rw [List.drop_drop]
    have hlx : ((acc ++ [x]).drop (acc.length + 1 - cap)).length =
        acc.length + 1 - (acc.length + 1 - cap) := by simp
    rw [hlx]
    have hidx : acc.length + 1 - cap + (acc.length + 1 - (acc.length + 1 - cap) + xs.length - cap) =
        acc.length + (xs.length + 1) - cap := by omega
    rw [hidx, List.append_assoc, List.singleton_append, List.length_cons]

-- ── C7 ─────────────────────────────────────────────────────────────────

/-- The network-log state right after `enable(None)` on a fresh log:
capture on, no URL filters, empty buffer. -/
def enabledNetLog : NetworkLogState := ⟨[], true, []⟩

/-- With capture enabled and no filters, `NetworkLog::add` is exactly the
bounded insert at capacity 500 on the entry buffer. -/
theorem networkLogAdd_enabled (st : NetworkLogState) (e : NetworkEntry)
    (hen : st.enabled = true) (hpat : st.patterns = []) :
    networkLogAdd st e = { st with entries := boundedPush 500 st.entries e } := by
  unfold networkLogAdd boundedPush
  rw [hen, hpat]
  simp

/-- C7: the console buffer never exceeds 1000 entries and the network
buffer never exceeds 500; an insert at capacity evicts exactly the single
oldest entry; and `cap + k` inserts into an empty log (`k > 0`) leave
exactly the most recent `cap` entries in insertion order. -/
theorem log_buffers_bounded_retention (xs : List ConsoleEntry)
    (ys : List NetworkEntry) (k j : Nat)
    (hx : xs.length = 1000 + k) (hk : 0 < k)
    (hy : ys.length = 500 + j) (hj : 0 < j) :
    List.foldl consoleLogAdd [] xs = xs.drop k ∧
    (List.foldl consoleLogAdd [] xs).length = 1000 ∧
    (∀ (es : List ConsoleEntry) e, es.length ≤ 1000 →
      (consoleLogAdd es e).length ≤ 1000) ∧
    (∀ (es : List ConsoleEntry) e, 1000 ≤ es.length →
      consoleLogAdd es e = es.drop 1 ++ [e]) ∧
    (List.foldl networkLogAdd enabledNetLog ys).entries = ys.drop j ∧
    (List.foldl networkLogAdd enabledNetLog ys).entries.length = 500 ∧
    (∀ (st : NetworkLogState) e, st.entries.length ≤ 500 →
      (networkLogAdd st e).entries.length ≤ 500) ∧
    (∀ (st : NetworkLogState) e, st.enabled = true → st.patterns = [] →
      500 ≤ st.entries.length →
      (networkLogAdd st e).entries = st.entries.drop 1 ++ [e]) := by
  have hnet : ∀ (ys2 es : List NetworkEntry),
      List.foldl networkLogAdd ⟨es, true, []⟩ ys2 =
        ⟨List.foldl (boundedPush 500) es ys2, true, []⟩ := by
    intro ys2
    induction ys2 with
    | nil =>
      intro es
      simp
    | cons y ys2 ihy =>
      intro es
      rw [List.foldl_cons, List.foldl_cons, networkLogAdd_enabled _ y rfl rfl]
      exact ihy _
  have hfold : List.foldl networkLogAdd enabledNetLog ys =
      ⟨List.foldl (boundedPush 500) [] ys, true, []⟩ := hnet ys []
  refine ⟨?_, ?_, ?_, ?_, ?_, ?_, ?_, ?_⟩
  · rw [consoleLogAdd_eq_boundedPush,
      foldl_boundedPush (by omega) xs [] (by simp)]
    simp only [List.nil_append, List.length_nil, Nat.zero_add]
    rw [hx, show 1000 + k - 1000 = k from by omega]
  · rw [consoleLogAdd_eq_boundedPush,
      foldl_boundedPush (by omega) xs [] (by simp)]
    simp only [List.nil_append, List.length_nil, Nat.zero_add, List.length_drop]
    omega
  · intro es e h
    rw [consoleLogAdd_eq_boundedPush]
    exact boundedPush_length_le (by omega) es e h
  · intro es e h
    simp [consoleLogAdd, h]
  · rw [hfold]
    show List.foldl (boundedPush 500) [] ys = ys.drop j
    rw [foldl_boundedPush (by omega) ys [] (by simp)]
    simp only [List.nil_append, List.length_nil, Nat.zero_add]
    rw [hy, show 500 + j - 500 = j from by omega]
  · rw [hfold]
    show (List.foldl (boundedPush 500) [] ys).length = 500
    rw [foldl_boundedPush (by omega) ys [] (by simp)]
    simp only [List.nil_append, List.length_nil, Nat.zero_add, List.length_drop]
    omega
  · intro st e h
    by_cases hen : st.enabled = true
    · by_cases hg : (!st.patterns.isEmpty &&
          !(st.patterns.any (fun p => isSubstr p e.url))) = true
      · have : networkLogAdd st e = st := by
          unfold networkLogAdd
          rw [hen]
          simp only [Bool.not_true, Bool.false_eq_true, if_false]
          rw [if_pos hg]
        rw [this]
        exact h
      · have : networkLogAdd st e =
            { st with entries := boundedPush 500 st.entries e } := by
          unfold networkLogAdd boundedPush
          rw [hen]
          simp only [Bool.not_true, Bool.false_eq_true, if_false]
          rw [if_neg hg]
        rw [this]
        exact boundedPush_length_le (by omega) st.entries e h
    · have : networkLogAdd st e = st := by
        unfold networkLogAdd
        rw [Bool.not_eq_true] at hen
        rw [hen]
        simp
      rw [this]
      exact h
  · intro st e hen hpat h
    rw [networkLogAdd_enabled st e hen hpat]
    show boundedPush 500 st.entries e = st.entries.drop 1 ++ [e]
    unfold boundedPush
    rw [if_pos h]

/-- Witness for C7: 1001 console inserts and 501 network inserts. -/
theorem log_buffers_bounded_retention_witness :
    (List.replicate 1001 (ConsoleEntry.mk (str "log") (str "x") 0)).length =
      1000 + 1 ∧
    (List.replicate 501 (NetworkEntry.mk (str "u") (str "GET") 200)).length =
      500 + 1 ∧
    List.foldl consoleLogAdd []
        (List.replicate 1001 (ConsoleEntry.mk (str "log") (str "x") 0)) =
      (List.replicate 1001 (ConsoleEntry.mk (str "log") (str "x") 0)).drop 1 :=
  ⟨by rw [List.length_replicate], by rw [List.length_replicate],
    (log_buffers_bounded_retention
      (List.replicate 1001 (ConsoleEntry.mk (str "log") (str "x") 0))
      (List.replicate 501 (NetworkEntry.mk (str "u") (str "GET") 200))
      1 1 (by rw [List.length_replicate]) (by decide)
      (by rw [List.length_replicate]) (by decide)).1⟩

-- ── Tab pool (src/browser/pool.rs) ────────────────────────────────────

/-- A browser page, identified by its protocol target id (the only field
`TabPool` inspects). -/
structure Page where
  targetId : Str
deriving DecidableEq

/-- `TabPool` (pool.rs lines 4-7). -/
structure TabPool where
  pages : List Page
  active_index : Nat
deriving DecidableEq

/-- Model of `Iterator::position` / the `enumerate` search loop. -/
def findPos (p : α → Bool) : List α → Option Nat
  | [] => none
  | x :: xs => if p x then some 0 else (findPos p xs).map (· + 1)

theorem findPos_lt_length {p : α → Bool} :
    ∀ {l : List α} {i : Nat}, findPos p l = some i → i < l.length := by
  intro l
  induction l with
  | nil =>
    intro i h
    simp [findPos] at h
  | cons x xs ih =>
    intro i h
    unfold findPos at h
    by_cases hp : p x = true
    · rw [if_pos hp] at h
      cases h
      simp
    · rw [if_neg hp] at h
      cases hf : findPos p xs with
      | none => rw [hf] at h; simp at h
      | some i2 =>
        rw [hf] at h
        simp at h
        have := ih hf
        simp [← h]
        omega

/-- `TabPool::new` (pool.rs lines 10-15). -/
def TabPool.new (initial_page : Page) : TabPool := ⟨[initial_page], 0⟩

/-- `TabPool::active_page` (pool.rs lines 17-19); the panicking index is
modelled as an optional lookup. -/
def TabPool.active_page (t : TabPool) : Option Page :=
  t.pages[t.active_index]?

/-- `TabPool::add_page` (pool.rs lines 21-24). -/
def TabPool.add_page (t : TabPool) (page : Page) : TabPool :=
  let pages := t.pages ++ [page]
  ⟨pages, pages.length - 1⟩

/-- `TabPool::select_page` (pool.rs lines 26-33): returns the new state
and the source's `Option<&Page>` result. -/
def TabPool.select_page (t : TabPool) (index : Nat) : TabPool × Option Page :=
  if index < t.pages.length then
    ({ t with active_index := index }, t.pages[index]?)
  else (t, none)

/-- `TabPool::select_by_target_id` (pool.rs lines 35-43). -/
def TabPool.select_by_target_id (t : TabPool) (tid : Str) :
    TabPool × Option Page :=
  match findPos (fun p => p.targetId == tid) t.pages with
  | some i => ({ t with active_index := i }, t.pages[i]?)
  | none => (t, none)

/-- `TabPool::remove_page` (pool.rs lines 45-59). -/
def TabPool.remove_page (t : TabPool) (tid : Str) : TabPool × Bool :=
  match findPos (fun p => p.targetId == tid) t.pages with
  | some pos =>
    let pages := t.pages.eraseIdx pos
    let idx :=
      if pages.length ≤ t.active_index && !pages.isEmpty then pages.length - 1
      else t.active_index
    (⟨pages, idx⟩, true)
  | none => (t, false)

/-- The C9 invariant: a non-empty page list always has an in-range
active index. -/
def TabPool.Inv (t : TabPool) : Prop :=
  t.pages ≠ [] → t.active_index < t.pages.length

-- ── C9 ─────────────────────────────────────────────────────────────────

/-- C9: every `TabPool` operation preserves the invariant that a
non-empty page list has an in-range active index (so `active_page`
addresses a valid page), and `select_page` with an out-of-range index
returns `None` leaving pages and active index unchanged. -/
theorem tabPool_active_index_invariant (p page : Page) (t : TabPool)
    (i : Nat) (tid : Str) (hInv : t.Inv) :
    (TabPool.new p).Inv ∧
    (t.add_page page).Inv ∧
    (t.select_page i).1.Inv ∧
    (t.pages.length ≤ i → t.select_page i = (t, none)) ∧
    (t.select_by_target_id tid).1.Inv ∧
    (t.remove_page tid).1.Inv ∧
    (t.pages ≠ [] → ∃ pg, t.active_page = some pg) := by
  refine ⟨?_, ?_, ?_, ?_, ?_, ?_, ?_⟩
  · intro _
    simp [TabPool.new]
  · intro _
    simp [TabPool.add_page]
  · unfold TabPool.select_page
    by_cases hi : i < t.pages.length
    · rw [if_pos hi]
      intro _
      exact hi
    · rw [if_neg hi]
      exact hInv
  · intro hle
    unfold TabPool.select_page
    rw [if_neg (by omega)]
  · unfold TabPool.select_by_target_id
    cases hf : findPos (fun p => p.targetId == tid) t.pages with
    | none => exact hInv
    | some i2 =>
      intro _
      exact findPos_lt_length hf
  · unfold TabPool.remove_page
    cases hf : findPos (fun p => p.targetId == tid) t.pages with
    | none => exact hInv
    | some pos =>
      intro hne
      simp only at hne ⊢
      by_cases hb : ((t.pages.eraseIdx pos).length ≤ t.active_index &&
          !(t.pages.eraseIdx pos).isEmpty) = true
      · rw [if_pos hb]
        have hlen : 0 < (t.pages.eraseIdx pos).length :=
          List.length_pos.mpr hne
        omega
      · rw [if_neg hb]
        have hemp : (t.pages.eraseIdx pos).isEmpty = false := by
          cases he : (t.pages.eraseIdx pos).isEmpty
          · rfl
          · exact absurd (List.isEmpty_iff.mp he) hne
        rw [Bool.and_eq_true, Bool.not_eq_true'] at hb
        push_neg at hb
        have := hb
        by_cases hle : (t.pages.eraseIdx pos).length ≤ t.active_index
        · exact absurd hemp (this (by simpa using hle))
        · omega
  · intro hne
    have hlt : t.active_index < t.pages.length := hInv hne
    exact ⟨t.pages[t.active_index], List.getElem?_eq_getElem hlt⟩

/-- Witness for C9 at a concrete two-tab pool. -/
theorem tabPool_active_index_invariant_witness :
    TabPool.Inv ⟨[Page.mk (str "tab-a"), Page.mk (str "tab-b")], 1⟩ ∧
    (TabPool.select_page ⟨[Page.mk (str "tab-a"), Page.mk (str "tab-b")], 1⟩ 5 =
      (⟨[Page.mk (str "tab-a"), Page.mk (str "tab-b")], 1⟩, none)) :=
  ⟨fun _ => by decide,
    (tabPool_active_index_invariant (Page.mk (str "p")) (Page.mk (str "q"))
      ⟨[Page.mk (str "tab-a"), Page.mk (str "tab-b")], 1⟩ 5 (str "tab-b")
      (fun _ => by decide)).2.2.2.1 (by decide)⟩

-- ── C10 ────────────────────────────────────────────────────────────────

/-- `ConsoleLog::read` (javascript.rs lines 79-109): filter by optional
level and substring pattern, then clear the whole buffer when requested.
Returns the filtered entries and the buffer state after the read. -/
def consoleLogRead (entries : List ConsoleEntry) (level : Option Str)
    (clear : Bool) (pattern : Option Str) :
    List ConsoleEntry × List ConsoleEntry :=
  let filtered := entries.filter (fun e =>
    (match level with
     | some l => e.level == l
     | none => true) &&
    (match pattern with
     | some p => isSubstr p e.text
     | none => true))
  (filtered, if clear then [] else entries)

/-- C10: `read` with `clear = true` empties the entire buffer — also the
entries the filters rejected — while `clear = false` leaves the buffer
exactly unchanged; the returned entries are the same either way. -/
theorem consoleLog_read_clear_semantics (entries : List ConsoleEntry)
    (level pattern : Option Str) :
    (consoleLogRead entries level true pattern).2 = [] ∧
    (consoleLogRead entries level false pattern).2 = entries ∧
    (consoleLogRead entries level true pattern).1 =
      (consoleLogRead entries level false pattern).1 :=
  ⟨rfl, rfl, rfl⟩

-- ── Accessible-name computation (src/tools/snapshot.rs) ───────────────

/-- JS truthiness of a `getAttribute` result (`null` or `""` are falsy). -/
def truthy : Option Str → Bool
  | some s => !s.isEmpty
  | none => false

/-- The value of an optional attribute (only read where truthy). -/
def optVal : Option Str → Str
  | some s => s
  | none => []

/-- The truncation used by `getAccessibleName`:
`text.length > 60 ? text.slice(0, 60) + ... : text`. -/
def trunc60 (text : Str) : Str :=
  if 60 < text.length then text.take 60 ++ str "..." else text

/-- Collapse adjacent spaces to a single space. -/
def squeezeSpaces : Str → Str
  | [] => []
  | [c] => [c]
  | c :: d :: rest =>
    if c = ' ' ∧ d = ' ' then squeezeSpaces (d :: rest)
    else c :: squeezeSpaces (d :: rest)

/-- JS `replace(/\s+/g, ' ')`: every whitespace character becomes a
space and each whitespace run collapses to one space. -/
def collapseWS (s : Str) : Str :=
  squeezeSpaces (s.map (fun c => if isWS c then ' ' else c))

/-- The form-control tags of `getAccessibleName`'s membership tests. -/
def formTags : List Str := [str "input", str "select", str "textarea"]

/-- `name.replace(/[_\-\[\]]/g, ' ')` from the name-attribute fallback. -/
def replaceNameChars (s : Str) : Str :=
  s.map (fun c => if c = '_' ∨ c = '-' ∨ c = '[' ∨ c = ']' then ' ' else c)

/-- The DOM-derived inputs of `getAccessibleName` (snapshot.rs lines
155-236): each attribute getter as an optional string (present iff the
attribute exists), with the document/scope lookups pre-resolved —
`labelledbyTexts` holds the `textContent` of each element referenced by
`aria-labelledby` (present iff the attribute is truthy), `labelForText`
the text of the `label[for=id]` hit (present iff the element has an id
and the label was found), `wrapLabelText` the text of the wrapping label
clone with its nested form controls removed.  `tag` and `typeAttr` are
lowercased; `value` is the element's current value (absent when
undefined). -/
structure NameInputs where
  labelledbyTexts : Option (List Str)
  ariaLabel : Option Str
  tag : Str
  typeAttr : Str
  labelForText : Option Str
  wrapLabelText : Option Str
  ownText : Str
  alt : Option Str
  placeholder : Option Str
  value : Option Str
  title : Option Str
  nameAttr : Option Str
deriving DecidableEq

/-- Branch 1 of `getAccessibleName`: `aria-labelledby` — trim each
referenced text, drop empties, join with spaces, truncate. -/
def labelledbyName (i : NameInputs) : Option Str :=
  match i.labelledbyTexts with
  | some texts =>
    let parts := (texts.map trim).filter (fun s => !s.isEmpty)
    if !parts.isEmpty then some (trunc60 (joinSep (str " ") parts)) else none
  | none => none

/-- Branch 3: `label[for=id]` association — collapse whitespace in the
label's trimmed text, truncate. -/
def labelForName (i : NameInputs) : Option Str :=
  if i.tag ∈ formTags then
    match i.labelForText with
    | some lt =>
      let text := collapseWS (trim lt)
      if !text.isEmpty then some (trunc60 text) else none
    | none => none
  else none

/-- Branch 4: wrapping `label` parent, nested controls stripped. -/
def wrapLabelName (i : NameInputs) : Option Str :=
  if i.tag ∈ formTags then
    match i.wrapLabelText with
    | some wt =>
      let text := collapseWS (trim wt)
      if !text.isEmpty then some (trunc60 text) else none
    | none => none
  else none

/-- Branch 5: own `textContent` for non-form, non-img elements. -/
def ownTextName (i : NameInputs) : Option Str :=
  if i.tag ∉ (formTags ++ [str "img"]) then
    let text := collapseWS (trim i.ownText)
    if !text.isEmpty then some (trunc60 text) else none
  else none

/-- `getAccessibleName` (snapshot.rs lines 155-236): the priority chain
aria-labelledby → aria-label → file-input literal → label-for → wrapping
label → own text → img alt → placeholder → value → alt → title → name
attribute, empty string as last resort. -/
def getAccessibleName (i : NameInputs) : Str :=
  match labelledbyName i with
  | some r => r
  | none =>
    if truthy i.ariaLabel then trim (optVal i.ariaLabel)
    else if i.tag = str "input" ∧ i.typeAttr = str "file" then str "Choose file"
    else match labelForName i with
    | some r => r
    | none =>
      match wrapLabelName i with
      | some r => r
      | none =>
        match ownTextName i with
        | some r => r
        | none =>
          if i.tag = str "img" ∧ truthy i.alt then trim (optVal i.alt)
          else if truthy i.placeholder then trim (optVal i.placeholder)
          else if truthy i.value ∧ (i.tag = str "input" ∨ i.tag = str "textarea") then
            optVal i.value
          else if truthy i.alt then trim (optVal i.alt)
          else if truthy i.title then trim (optVal i.title)
          else if i.tag ∈ formTags ∧ truthy i.nameAttr then
            trim (replaceNameChars (optVal i.nameAttr))
          else []

theorem trunc60_length_le (t : Str) : (trunc60 t).length ≤ 63 := by
  unfold trunc60
  by_cases h : 60 < t.length
  · rw [if_pos h]
    simp only [List.length_append, List.length_take]
    have h1 := Nat.min_le_left 60 t.length
    have h2 : (str "...").length = 3 := rfl
    omega
  · rw [if_neg h]
    omega

theorem labelledbyName_le {i : NameInputs} {r : Str}
    (h : labelledbyName i = some r) : r.length ≤ 63 := by
  unfold labelledbyName at h
  split at h
  · dsimp only at h
    split at h
    · cases h
      exact trunc60_length_le _
    · exact absurd h (by simp)
  · exact absurd h (by simp)

theorem labelForName_le {i : NameInputs} {r : Str}
    (h : labelForName i = some r) : r.length ≤ 63 := by
  unfold labelForName at h
  split at h
  · split at h
    · dsimp only at h
      split at h
      · cases h
        exact trunc60_length_le _
      · exact absurd h (by simp)
    · exact absurd h (by simp)
  · exact absurd h (by simp)

theorem wrapLabelName_le {i : NameInputs} {r : Str}
    (h : wrapLabelName i = some r) : r.length ≤ 63 := by
  unfold wrapLabelName at h
  split at h
  · split at h
    · dsimp only at h
      split at h
      · cases h
        exact trunc60_length_le _
      · exact absurd h (by simp)
    · exact absurd h (by simp)
  · exact absurd h (by simp)

theorem ownTextName_le {i : NameInputs} {r : Str}
    (h : ownTextName i = some r) : r.length ≤ 63 := by
  unfold ownTextName at h
  split at h
  · dsimp only at h
    split at h
    · cases h
      exact trunc60_length_le _
    · exact absurd h (by simp)
  · exact absurd h (by simp)

-- ── C8 ─────────────────────────────────────────────────────────────────

/-- An element whose only name source is a 70-character `aria-label`. -/
def longAriaInput : NameInputs :=
  ⟨none, some (List.replicate 70 'a'), str "button", [], none, none, [],
    none, none, none, none, none⟩

/-- C8 counterexample: the `aria-label` branch does not truncate — a
70-character label is emitted in full, longer than 60 characters plus
the 3-character ellipsis marker, and differs from the truncated form. -/
theorem getAccessibleName_aria_label_untruncated :
    getAccessibleName longAriaInput = List.replicate 70 'a' ∧
    63 < (getAccessibleName longAriaInput).length ∧
    getAccessibleName longAriaInput ≠ trunc60 (List.replicate 70 'a') := by
  decide

/-- C8 (amended): only the aria-labelledby, label-for, wrapping-label and
own-text branches truncate to 60 characters plus the ellipsis marker; the
aria-label, alt, placeholder, value, title and name-attribute branches
return their text untruncated.  Consequently the emitted name is bounded
by 60 characters plus the marker whenever none of those untruncated
attribute sources is present. -/
theorem getAccessibleName_truncating_branches_bounded (i : NameInputs)
    (hal : truthy i.ariaLabel = false) (halt : truthy i.alt = false)
    (hph : truthy i.placeholder = false) (hv : truthy i.value = false)
    (hti : truthy i.title = false) (hna : truthy i.nameAttr = false) :
    (getAccessibleName i).length ≤ 63 := by
  unfold getAccessibleName
  cases h1 : labelledbyName i with
  | some r => exact labelledbyName_le h1
  | none =>
    rw [if_neg (by simp [hal])]
    by_cases hfile : i.tag = str "input" ∧ i.typeAttr = str "file"
    · rw [if_pos hfile]
      decide
    · rw [if_neg hfile]
      cases h3 : labelForName i with
      | some r => exact labelForName_le h3
      | none =>
        cases h4 : wrapLabelName i with
        | some r => exact wrapLabelName_le h4
        | none =>
          cases h5 : ownTextName i with
          | some r => exact ownTextName_le h5
          | none =>
            rw [if_neg (by simp [halt]), if_neg (by simp [hph]),
              if_neg (by simp [hv]), if_neg (by simp [halt]),
              if_neg (by simp [hti]), if_neg (by simp [hna])]
            simp

/-- Witness for C8's amended theorem: a plain `div` with a long own text
and no other name sources stays within the 63-character bound. -/
theorem getAccessibleName_truncating_branches_bounded_witness :
    truthy (NameInputs.mk none none (str "div") [] none none
        (List.replicate 100 'x') none none none none none).ariaLabel = false ∧
    (getAccessibleName (NameInputs.mk none none (str "div") [] none none
        (List.replicate 100 'x') none none none none none)).length ≤ 63 :=
  ⟨by decide,
    getAccessibleName_truncating_branches_bounded
      (NameInputs.mk none none (str "div") [] none none
        (List.replicate 100 'x') none none none none none)
      (by decide) (by decide) (by decide) (by decide) (by decide) (by decide)⟩

end RemixBrowser
